import Mathlib

/-
Shallow embedding of gitmodel/workspace.py (class Workspace and class Branch)
over a model of the pygit2 object store described by the spec (section 6).

Modelling conventions:
- The object store is a list of git objects; an object id (Oid) is a position
  in that list.  writeObject is content-addressed: writing an object that is
  already stored returns its existing id (as in git, equal content gives an
  equal id), otherwise the object is appended.
- References are an association list from names to targets; a target is either
  a direct Oid (pygit2 GIT_REF_OID) or a symbolic name (GIT_REF_SYMBOLIC).
- Python exceptions are modelled by the PyExn type; a method on the workspace
  returns a PyResult, which carries the workspace state both on a normal
  return and at the point an exception is raised (Python does not roll state
  back when an exception propagates).
- Machine-level details that no claim depends on (timestamps, the flattening
  of diff deltas into per-file patches) are modelled as stated in the doc
  comment of the corresponding definition.
-/

/-- Author or committer signature: name, email, timestamp, timezone offset
(spec section 3, Commit). -/
structure Signature where
  name : String
  email : String
  time : Nat
  offset : Int
deriving DecidableEq, Repr

/-- One entry of a tree object: name, object id, file mode. -/
structure TreeEntry where
  name : String
  oid : Nat
  filemode : Nat
deriving DecidableEq, Repr

/-- A stored git object: blob, tree, or commit (spec section 3). -/
inductive GitObject where
  | blob (content : String)
  | tree (entries : List TreeEntry)
  | commit (treeOid : Nat) (parents : List Nat) (author : Signature)
      (committer : Signature) (message : String)
deriving DecidableEq, Repr

/-- pygit2 constant GIT_FILEMODE_BLOB (0o100644), the default mode argument of
Workspace.add_blob. -/
def GIT_FILEMODE_BLOB : Nat := 0o100644

/-- pygit2 constant GIT_FILEMODE_TREE (0o40000), the mode of a subtree entry. -/
def GIT_FILEMODE_TREE : Nat := 0o40000

/-- pygit2 constant GIT_OBJ_COMMIT: the object-type code of a commit.  Its
numeric value is 1. -/
def GIT_OBJ_COMMIT : Nat := 1

/-- pygit2 constant GIT_REF_OID: the reference-type code of a direct
reference.  Its numeric value is also 1, the same number as GIT_OBJ_COMMIT;
Workspace.create_branch compares a reference-type code against the
object-type constant GIT_OBJ_COMMIT. -/
def GIT_REF_OID : Nat := 1

/-- pygit2 constant GIT_REF_SYMBOLIC: the reference-type code of a symbolic
reference.  Its numeric value is 2. -/
def GIT_REF_SYMBOLIC : Nat := 2

/-- The target of a reference: a direct object id or a symbolic name. -/
inductive RefTarget where
  | oid (n : Nat)
  | symbolic (name : String)
deriving DecidableEq, Repr

/-- pygit2 Reference.type: GIT_REF_OID for a direct reference and
GIT_REF_SYMBOLIC for a symbolic one.  This is the reference type, not the
type of the object the reference points at. -/
def RefTarget.typeCode : RefTarget → Nat
  | .oid _ => GIT_REF_OID
  | .symbolic _ => GIT_REF_SYMBOLIC

/-- The object store plus reference store of one repository
(spec section 6, store collaborator). -/
structure Repo where
  objects : List GitObject
  refs : List (String × RefTarget)
deriving DecidableEq, Repr

/-- Position of the first occurrence of an object in the store. -/
def idxOf (l : List GitObject) (o : GitObject) : Option Nat :=
  match l with
  | [] => none
  | x :: xs => if x = o then some 0 else (idxOf xs o).map (fun n => n + 1)

/-- Store an object content-addressedly: an already-stored object keeps its
id, a new object is appended at a fresh id. -/
def Repo.writeObject (r : Repo) (o : GitObject) : Repo × Nat :=
  match idxOf r.objects o with
  | some i => (r, i)
  | none => ({ r with objects := r.objects ++ [o] }, r.objects.length)

/-- Look an object up by id (pygit2 repo[oid]). -/
def Repo.lookupObject (r : Repo) (oid : Nat) : Option GitObject :=
  r.objects[oid]?

/-- pygit2 Repository.lookup_reference; a missing name is a KeyError in the
caller, modelled as none here. -/
def Repo.lookupReference (r : Repo) (name : String) : Option RefTarget :=
  (r.refs.find? (fun p => p.1 = name)).map (fun p => p.2)

/-- Resolve a reference target to an object id; a symbolic reference resolves
through one level of indirection. -/
def RefTarget.resolveOid (t : RefTarget) (r : Repo) : Option Nat :=
  match t with
  | .oid n => some n
  | .symbolic s =>
    match r.lookupReference s with
    | some (.oid n) => some n
    | _ => none

/-- pygit2 Repository.create_reference: fails when the name already exists,
otherwise records the new reference. -/
def Repo.createReference (r : Repo) (name : String) (t : RefTarget) :
    Except Unit Repo :=
  if (r.lookupReference name).isSome then .error ()
  else .ok { r with refs := r.refs ++ [(name, t)] }

/-- Update an existing name in a reference list, or append a fresh one. -/
def setRefList (l : List (String × RefTarget)) (name : String)
    (t : RefTarget) : List (String × RefTarget) :=
  match l with
  | [] => [(name, t)]
  | p :: rest => if p.1 = name then (name, t) :: rest else p :: setRefList rest name t

/-- Create or repoint a reference (used by commit creation, which repoints
the given ref to the new commit). -/
def Repo.setReference (r : Repo) (name : String) (t : RefTarget) : Repo :=
  { r with refs := setRefList r.refs name t }

/-- Delete a reference (pygit2 Reference.delete, used for lock release). -/
def Repo.deleteReference (r : Repo) (name : String) : Repo :=
  { r with refs := r.refs.filter (fun p => p.1 != name) }

/-- pygit2 Repository.create_commit(ref, author, committer, message,
tree_oid, parents): stores the commit object and repoints ref at it,
returning the new commit id. -/
def Repo.create_commit (r : Repo) (ref : String) (author committer : Signature)
    (message : String) (treeOid : Nat) (parents : List Nat) : Repo × Nat :=
  let rc := r.writeObject (.commit treeOid parents author committer message)
  (rc.1.setReference ref (.oid rc.2), rc.2)

/-- Entries of the tree object stored at an id (empty for a non-tree). -/
def Repo.treeEntries (r : Repo) (oid : Nat) : List TreeEntry :=
  match r.lookupObject oid with
  | some (.tree es) => es
  | _ => []

/-- Modelled from the spec: the configuration object built by the missing
gitmodel.conf module.  Only the values the workspace reads are modelled
(LOCK_WAIT_TIMEOUT, LOCK_WAIT_INTERVAL, DEFAULT_GIT_USER as a name and email
pair, DEFAULT_TZ_OFFSET). -/
structure Config where
  LOCK_WAIT_TIMEOUT : Nat
  LOCK_WAIT_INTERVAL : Nat
  DEFAULT_GIT_USER : String × String
  DEFAULT_TZ_OFFSET : Int
deriving DecidableEq, Repr

/-- The Workspace state: the repository handle, the current head reference
name, and the in-memory index.  The index is the id of a tree object; it is
None only between the start of construction and the first assignment, which
is why update_index guards on it. -/
structure Workspace where
  repo : Repo
  head : String
  index : Option Nat
  config : Config
deriving DecidableEq, Repr

/-- The Python exceptions the embedded code can raise. -/
inductive PyExn where
  | keyError
  | attributeError (attr : String)
  | typeError
  | valueError
  | gitError
  | repositoryError
  | repositoryNotFound
  | lockWaitTimeoutExceeded
deriving DecidableEq, Repr

/-- Result of running a workspace method: a normal return with the resulting
state and value, or an exception together with the state at the moment it was
raised (Python state is not rolled back by an exception). -/
inductive PyResult (α : Type) where
  | ok (ws : Workspace) (val : α)
  | exn (ws : Workspace) (e : PyExn)
deriving DecidableEq, Repr

/-- Decidable equality for Except results, used to evaluate branch views on
concrete repositories. -/
instance {e a : Type} [DecidableEq e] [DecidableEq a] : DecidableEq (Except e a) :=
  fun x y =>
    match x, y with
    | .ok u, .ok v =>
      if h : u = v then isTrue (by rw [h])
      else isFalse (by intro hh; injection hh with h2; exact h h2)
    | .error u, .error v =>
      if h : u = v then isTrue (by rw [h])
      else isFalse (by intro hh; injection hh with h2; exact h h2)
    | .ok _, .error _ => isFalse (by intro hh; exact Except.noConfusion hh)
    | .error _, .ok _ => isFalse (by intro hh; exact Except.noConfusion hh)

/-- Drop the value of a result, keeping state and exception behaviour. -/
def discardVal {α : Type} : PyResult α → PyResult Unit
  | .ok w _ => .ok w ()
  | .exn w e => .exn w e

/-- The Branch view (class Branch, workspace.py lines 315 to 324): reference
target, commit id, and the id of the tree of that commit. -/
structure Branch where
  refTarget : RefTarget
  commitOid : Nat
  treeOid : Nat
deriving DecidableEq, Repr

/-- Branch.__init__: look the reference up (KeyError when absent), resolve it
to its object, and read commit and tree from it.  When the resolved object is
not a commit, reading .tree from it raises AttributeError. -/
def Branch.make (repo : Repo) (ref : String) : Except PyExn Branch :=
  match repo.lookupReference ref with
  | none => .error .keyError
  | some t =>
    match t.resolveOid repo with
    | none => .error .gitError
    | some c =>
      match repo.lookupObject c with
      | none => .error .gitError
      | some (.commit treeOid _ _ _ _) => .ok ⟨t, c, treeOid⟩
      | some _ => .error (.attributeError "tree")

/-- Workspace.branch (lines 170 to 176): build a Branch view of the current
head; a KeyError (missing reference) is caught and turned into None, any
other exception propagates. -/
def Workspace.branch (ws : Workspace) : Except PyExn (Option Branch) :=
  match Branch.make ws.repo ws.head with
  | .ok b => .ok (some b)
  | .error .keyError => .ok none
  | .error e => .error e

/-- Workspace.locked (lines 308 to 313): true iff the reference
refs/locks/id currently resolves. -/
def Workspace.locked (ws : Workspace) (id : String) : Bool :=
  (ws.repo.lookupReference ("refs/locks/" ++ id)).isSome

/-- Python truthiness of self.index in update_index: None is falsy, and a
pygit2 Tree defines __len__ (its number of entries) and no __bool__, so an
empty tree is falsy as well. -/
def Workspace.indexTruthy (ws : Workspace) : Bool :=
  match ws.index with
  | none => false
  | some i => decide (0 < (ws.repo.treeEntries i).length)

/-- Modelled from the spec: the store collaborator diff between two trees
(section 6) as the entries on which the two trees disagree.  The claim-level
use of a diff is only whether it is empty, which on canonically stored trees
agrees with the flattened per-file deltas pygit2 produces. -/
def treeDiff (a b : List TreeEntry) : List TreeEntry :=
  a.filter (fun e => !(b.any (fun x => decide (x = e)))) ++
    b.filter (fun e => !(a.any (fun x => decide (x = e))))

/-- Workspace.diff (lines 226 to 236): diff the tree of the resolved branch
(or a freshly written empty tree when the branch is unborn) against the
current index. -/
def Workspace.diff (ws : Workspace) : PyResult (List TreeEntry) :=
  match ws.branch with
  | .error e => .exn ws e
  | .ok (some b) =>
    match ws.index with
    | none => .exn ws .typeError
    | some i => .ok ws (treeDiff (ws.repo.treeEntries b.treeOid) (ws.repo.treeEntries i))
  | .ok none =>
    let rp := ws.repo.writeObject (.tree [])
    let w1 : Workspace := { ws with repo := rp.1 }
    match w1.index with
    | none => .exn w1 .typeError
    | some i => .ok w1 (treeDiff [] (w1.repo.treeEntries i))

/-- Workspace.has_changes (lines 238 to 242): true iff the diff has at least
one delta. -/
def Workspace.has_changes (ws : Workspace) : PyResult Bool :=
  match ws.diff with
  | .exn w e => .exn w e
  | .ok w ds => .ok w (decide (0 < ds.length))

/-- Workspace.update_index (lines 178 to 189): refuse when the index is
truthy and has pending changes, then resolve the given ref, set head to it
and the index to the tree of the resolved branch.  Accessing .tree when the
branch property returned None raises AttributeError. -/
def Workspace.update_index (ws : Workspace) (ref : String) : PyResult Unit :=
  let step2 : Workspace → PyResult Unit := fun w =>
    match w.repo.lookupReference ref with
    | none => .exn w .repositoryError
    | some _ =>
      let w1 : Workspace := { w with head := ref }
      match w1.branch with
      | .error e => .exn w1 e
      | .ok none => .exn w1 (.attributeError "tree")
      | .ok (some b) => .ok { w1 with index := some b.treeOid } ()
  if ws.indexTruthy then
    match ws.has_changes with
    | .exn w e => .exn w e
    | .ok w1 hc => if hc then .exn w1 .repositoryError else step2 w1
  else step2 ws

/-- Workspace.set_branch (lines 159 to 168): resolve refs/heads/name, then
delegate to update_index on it. -/
def Workspace.set_branch (ws : Workspace) (name : String) : PyResult Unit :=
  match ws.repo.lookupReference ("refs/heads/" ++ name) with
  | none => .exn ws .repositoryError
  | some _ => ws.update_index ("refs/heads/" ++ name)

/-- Workspace.create_branch (lines 141 to 157): default the start point to
the current head (None and the empty string are both falsy), resolve it,
raise ValueError when its reference-type code differs from GIT_OBJ_COMMIT,
and create refs/heads/name at the target of the start point. -/
def Workspace.create_branch (ws : Workspace) (name : String)
    (start_point : Option String) : PyResult Unit :=
  let sp := match start_point with
    | none => ws.head
    | some s => if s = "" then ws.head else s
  match ws.repo.lookupReference sp with
  | none => .exn ws .repositoryError
  | some t =>
    if t.typeCode != GIT_OBJ_COMMIT then .exn ws .valueError
    else
      match t with
      | .oid n =>
        match ws.repo.createReference ("refs/heads/" ++ name) (.oid n) with
        | .ok r1 => .ok { ws with repo := r1 } ()
        | .error _ => .exn ws .gitError
      | .symbolic _ => .exn ws .valueError

/-- Merge new entries into the entries of a tree: an old entry whose name
reappears among the new entries is replaced, all other old entries are kept
(spec section 4.2). -/
def mergeEntries (old new : List TreeEntry) : List TreeEntry :=
  old.filter (fun e => new.all (fun n => n.name != e.name)) ++ new

/-- Modelled from the spec: gitmodel.utils.git.build_path, which is not under
src/ (section 4.2).  Walk the base tree by path segment, descending into the
existing subtree or an empty one when the segment is absent; a segment that
names a non-tree entry is a structural conflict; merge the entries at the
leaf and rebuild every ancestor bottom-up through the store, returning the
new root id.  A slash-delimited path is represented by its list of
segments.  subtreeEntries performs one descent step: the entries of the
subtree named s of a tree with the given entries, an empty subtree when the
name is absent, and a structural conflict when the name is not a tree. -/
def subtreeEntries (r : Repo) (base : List TreeEntry) (s : String) :
    Except PyExn (List TreeEntry) :=
  match base.find? (fun e => e.name = s) with
  | none => .ok []
  | some e =>
    match r.lookupObject e.oid with
    | some (.tree es) => .ok es
    | _ => .error .repositoryError

/-- Modelled from the spec: the recursive walk of build_path (section 4.2),
using subtreeEntries for each descent step and merging the new entries at
the leaf. -/
def buildPath (r : Repo) (segs : List String) (entries : List TreeEntry)
    (base : List TreeEntry) : Except PyExn (Repo × Nat) :=
  match segs with
  | [] => .ok (r.writeObject (.tree (mergeEntries base entries)))
  | s :: rest =>
    match subtreeEntries r base s with
    | .error e => .error e
    | .ok sb =>
      match buildPath r rest entries sb with
      | .error e => .error e
      | .ok (r1, subOid) =>
        .ok (r1.writeObject (.tree (mergeEntries base [⟨s, subOid, GIT_FILEMODE_TREE⟩])))

/-- Workspace.add (lines 191 to 196): rebuild the index along the given path
with the given entries and set the index to the new root. -/
def Workspace.add (ws : Workspace) (path : List String)
    (entries : List TreeEntry) : PyResult Unit :=
  match ws.index with
  | none => .exn ws .typeError
  | some i =>
    match buildPath ws.repo path entries (ws.repo.treeEntries i) with
    | .error e => .exn ws e
    | .ok (r1, oid) => .ok { ws with repo := r1, index := some oid } ()

/-- The leaf name of a slash-delimited path given as segments: the second
component of os.path.split. -/
def lastName (path : List String) : String := path.getLastD ""

/-- Workspace.add_blob (lines 198 to 206): split the path into parent path
and leaf name (os.path.split), create a blob from the content, add the
single entry under the parent path, and return the blob id. -/
def Workspace.add_blob (ws : Workspace) (path : List String) (content : String)
    (mode : Nat) : PyResult Nat :=
  let parent := path.dropLast
  let name := lastName path
  let rb := ws.repo.writeObject (.blob content)
  let ws1 : Workspace := { ws with repo := rb.1 }
  match ws1.add parent [⟨name, rb.2, mode⟩] with
  | .exn w e => .exn w e
  | .ok w _ => .ok w rb.2

/-- Modelled from the spec: gitmodel.utils.git.make_signature, which is not
under src/.  It builds a signature from a name and email pair with the
default timezone offset; the wall-clock timestamp defaults to the current
time, represented by a fixed value because no claim depends on it. -/
def make_signature (nameEmail : String × String) (offset : Int) : Signature :=
  ⟨nameEmail.1, nameEmail.2, 0, offset⟩

/-- Workspace.create_commit (lines 253 to 280): default the author to the
configured identity and the committer to the author, resolve the parents
from the ref when they are not supplied, store the commit and repoint the
ref at it. -/
def Workspace.create_commit (ws : Workspace) (ref : String) (treeOid : Nat)
    (message : String) (author committer : Option (String × String))
    (parents : Option (List Nat)) : PyResult Nat :=
  let a := match author with
    | none => ws.config.DEFAULT_GIT_USER
    | some x => x
  let c := match committer with
    | none => a
    | some x => x
  let sa := make_signature a ws.config.DEFAULT_TZ_OFFSET
  let sc := make_signature c ws.config.DEFAULT_TZ_OFFSET
  let pres : Except PyExn (List Nat) :=
    match parents with
    | some ps => .ok ps
    | none =>
      match ws.repo.lookupReference ref with
      | none => .ok []
      | some t =>
        match t.resolveOid ws.repo with
        | some n => .ok [n]
        | none => .error .gitError
  match pres with
  | .error e => .exn ws e
  | .ok ps =>
    let rc := ws.repo.create_commit ref sa sc message treeOid ps
    .ok { ws with repo := rc.1 } rc.2

/-- Workspace.commit (lines 244 to 251): return None when there is nothing
to commit, otherwise create a commit on the head ref whose tree is the index
and whose parents are the resolved branch commit, or nothing when the branch
is unborn. -/
def Workspace.commit (ws : Workspace) (message : String)
    (author committer : Option (String × String)) : PyResult (Option Nat) :=
  match ws.has_changes with
  | .exn w e => .exn w e
  | .ok w1 hc =>
    if !hc then .ok w1 none
    else
      match w1.branch with
      | .error e => .exn w1 e
      | .ok ob =>
        let parents := match ob with
          | some b => [b.commitOid]
          | none => []
        match w1.index with
        | none => .exn w1 (.attributeError "oid")
        | some i =>
          match w1.create_commit w1.head i message author committer (some parents) with
          | .exn w e => .exn w e
          | .ok w2 coid => .ok w2 (some coid)

/-- Workspace.commit_on_success (lines 208 to 224): raise RepositoryError
when the state is dirty at entry, run the body, and call commit after a
normal return of the body; an exception from the body propagates and the
commit call is skipped (the yield is not wrapped in try/finally). -/
def Workspace.commit_on_success (ws : Workspace) (message : String)
    (author committer : Option (String × String))
    (body : Workspace → PyResult Unit) : PyResult Unit :=
  match ws.has_changes with
  | .exn w e => .exn w e
  | .ok w1 hc =>
    if hc then .exn w1 .repositoryError
    else
      match body w1 with
      | .exn w2 e => .exn w2 e
      | .ok w2 _ => discardVal (w2.commit message author committer)

/-- Workspace.lock (lines 288 to 306), embedded as written.  While the lock
is held the loop body runs with a near-zero elapsed time on its first
iteration: when the timeout is already exceeded, formatting the error
message reads self.path, which Workspace does not define, raising
AttributeError; otherwise time.sleep is evaluated, and after the import
from time import time the name time is the time function, which has no
attribute sleep, raising AttributeError.  When the lock is free, the empty
blob is created and then self.create_reference is read, which Workspace does
not define either, raising AttributeError before the body can run. -/
def Workspace.lock (ws : Workspace) (id : String)
    (_body : Workspace → PyResult Unit) : PyResult Unit :=
  if ws.locked id then
    if 0 > ws.config.LOCK_WAIT_TIMEOUT then
      .exn ws (.attributeError "path")
    else
      .exn ws (.attributeError "sleep")
  else
    let rb := ws.repo.writeObject (.blob "")
    .exn { ws with repo := rb.1 } (.attributeError "create_reference")

/-- Modelled from the spec: Workspace.lock as section 4.7 describes the
intent of lines 288 to 306, with self.create_reference resolved to
self.repo.create_reference (the only reference-creation operation) and the
sleeping poll loop given its intended meaning.  Within one workspace no
other actor releases the lock, so a held lock ends in the timeout failure.
The control flow of the generator-based context manager is kept exactly:
ref.delete() runs only after a normal return of the body, because the yield
is not wrapped in try/finally. -/
def Workspace.lockIntended (ws : Workspace) (id : String)
    (body : Workspace → PyResult Unit) : PyResult Unit :=
  if ws.locked id then
    .exn ws .lockWaitTimeoutExceeded
  else
    let rb := ws.repo.writeObject (.blob "")
    match rb.1.createReference ("refs/locks/" ++ id) (.oid rb.2) with
    | .error _ => .exn { ws with repo := rb.1 } .gitError
    | .ok r2 =>
      let ws1 : Workspace := { ws with repo := r2 }
      match body ws1 with
      | .exn w2 e => .exn w2 e
      | .ok w2 _ => .ok { w2 with repo := w2.repo.deleteReference ("refs/locks/" ++ id) } ()

/-- Workspace.__init__ (lines 28 to 58): locate the repository (a missing
one raises RepositoryNotFound), set the head to the initial branch, and set
the index to the tree of the resolved branch when the head reference exists,
or to a freshly written empty tree when it does not.  The model registry and
logger that __init__ also sets up belong to the excluded model layer. -/
def Workspace.init (fs : List (String × Repo)) (repo_path : String)
    (initial_branch : String) (cfg : Config) : Except PyExn Workspace :=
  match (fs.find? (fun p => p.1 = repo_path)).map (fun p => p.2) with
  | none => .error .repositoryNotFound
  | some repo =>
    let ws0 : Workspace := ⟨repo, initial_branch, none, cfg⟩
    match repo.lookupReference initial_branch with
    | none =>
      let ro := repo.writeObject (.tree [])
      .ok { ws0 with repo := ro.1, index := some ro.2 }
    | some _ =>
      match ws0.update_index initial_branch with
      | .exn _ e => .error e
      | .ok w _ => .ok w

/-- Read the object id stored at a slash-delimited path (given as segments)
below a tree object. -/
def readPath (r : Repo) (oid : Nat) : List String → Option Nat
  | [] => some oid
  | s :: rest =>
    match r.lookupObject oid with
    | some (.tree es) =>
      match es.find? (fun e => e.name = s) with
      | some e => readPath r e.oid rest
      | none => none
    | _ => none

/-- Test whether a stored object is a commit. -/
def isCommitObj : GitObject → Bool
  | .commit _ _ _ _ _ => true
  | _ => false

/-- idxOf finds a position that really holds the object. -/
theorem idxOf_lookup (l : List GitObject) (o : GitObject) (i : Nat)
    (h : idxOf l o = some i) : l[i]? = some o := by
  induction l generalizing i with
  | nil => simp [idxOf] at h
  | cons x xs ih =>
    by_cases hx : x = o
    · subst hx
      simp [idxOf] at h
      subst h
      simp
    · simp [idxOf, hx] at h
      obtain ⟨j, hj, hji⟩ := h
      subst hji
      simpa using ih j hj

/-- A lookup that succeeds in a list also succeeds, with the same value, in
any extension of that list on the right. -/
theorem getElem?_append_left_of_some {α : Type} (l l2 : List α) (i : Nat)
    (x : α) (h : l[i]? = some x) : (l ++ l2)[i]? = some x := by
  induction l generalizing i with
  | nil => simp at h
  | cons a t ih =>
    cases i with
    | zero => simpa using h
    | succ n => simpa using ih n (by simpa using h)

/-- One repository extends another when every object lookup that succeeds in
the first succeeds with the same object in the second. -/
def Repo.ext (r1 r2 : Repo) : Prop :=
  ∀ i o, r1.lookupObject i = some o → r2.lookupObject i = some o

theorem Repo.ext_refl (r : Repo) : Repo.ext r r := fun _ _ h => h

theorem Repo.ext_trans {a b c : Repo} (h1 : Repo.ext a b) (h2 : Repo.ext b c) :
    Repo.ext a c := fun i o h => h2 i o (h1 i o h)

/-- Writing an object either keeps the store unchanged or appends the new
object at the end. -/
theorem Repo.writeObject_objects (r : Repo) (o : GitObject) :
    (r.writeObject o).1.objects = r.objects ∨
      (r.writeObject o).1.objects = r.objects ++ [o] := by
  unfold Repo.writeObject
  cases h : idxOf r.objects o
  · right; rfl
  · left; rfl

/-- Writing an object does not change the reference store. -/
theorem Repo.writeObject_refs (r : Repo) (o : GitObject) :
    (r.writeObject o).1.refs = r.refs := by
  unfold Repo.writeObject
  cases h : idxOf r.objects o
  · rfl
  · rfl

/-- Looking the returned id up after a write yields the written object. -/
theorem Repo.writeObject_lookup (r : Repo) (o : GitObject) :
    (r.writeObject o).1.lookupObject (r.writeObject o).2 = some o := by
  unfold Repo.writeObject
  cases h : idxOf r.objects o with
  | some i => simpa [Repo.lookupObject] using idxOf_lookup r.objects o i h
  | none =>
    simp only [Repo.lookupObject]
    induction r.objects with
    | nil => rfl
    | cons a t ih => simp [ih]

/-- After a write, every lookup that succeeded before still succeeds. -/
theorem Repo.writeObject_ext (r : Repo) (o : GitObject) :
    Repo.ext r (r.writeObject o).1 := by
  intro i x h
  rcases Repo.writeObject_objects r o with hobj | hobj
  · simpa [Repo.lookupObject, hobj] using h
  · simp only [Repo.lookupObject, hobj]
    exact getElem?_append_left_of_some r.objects [o] i x h

/-- setRefList makes the given name resolve to the given target. -/
theorem setRefList_lookup (l : List (String × RefTarget)) (name : String)
    (t : RefTarget) :
    ((setRefList l name t).find? (fun p => p.1 = name)).map (fun p => p.2) =
      some t := by
  induction l with
  | nil => simp [setRefList]
  | cons p rest ih =>
    by_cases hp : p.1 = name
    · simp [setRefList, hp]
    · simp [setRefList, hp, ih]

/-- Repointing a reference makes it resolve to the new target. -/
theorem Repo.setReference_lookup (r : Repo) (name : String) (t : RefTarget) :
    (r.setReference name t).lookupReference name = some t := by
  simpa [Repo.setReference, Repo.lookupReference] using
    setRefList_lookup r.refs name t

/-- Repointing a reference leaves the object store untouched. -/
theorem Repo.setReference_lookupObject (r : Repo) (name : String)
    (t : RefTarget) (i : Nat) :
    (r.setReference name t).lookupObject i = r.lookupObject i := rfl

/-- The diff of a tree against itself is empty. -/
theorem treeDiff_self (es : List TreeEntry) : treeDiff es es = [] := by
  have h : es.filter (fun e => !(es.any (fun x => decide (x = e)))) = [] := by
    rw [List.filter_eq_nil_iff]
    intro a ha
    simp only [Bool.not_eq_true', Bool.not_eq_false, List.any_eq_true]
    exact ⟨a, ha, by simp⟩
  simp [treeDiff, h]

/-- Merging a single entry makes a name lookup on the result return exactly
that entry. -/
theorem mergeEntries_find (base : List TreeEntry) (e : TreeEntry) :
    (mergeEntries base [e]).find? (fun x => x.name = e.name) = some e := by
  unfold mergeEntries
  induction base with
  | nil => simp
  | cons b rest ih =>
    by_cases hb : e.name = b.name
    · simpa [hb] using ih
    · have hb2 : ¬(b.name = e.name) := fun hx => hb hx.symm
      simpa [hb, hb2] using ih

/-- Building a path only extends the object store. -/
theorem buildPath_ext (segs : List String) (r : Repo)
    (entries base : List TreeEntry) (r1 : Repo) (oid : Nat)
    (h : buildPath r segs entries base = .ok (r1, oid)) : Repo.ext r r1 := by
  induction segs generalizing base r1 oid with
  | nil =>
    unfold buildPath at h
    injection h with h2
    have h1 := congrArg Prod.fst h2
    simp only at h1
    rw [← h1]
    exact Repo.writeObject_ext r _
  | cons s rest ih =>
    unfold buildPath at h
    cases hsb : subtreeEntries r base s with
    | error e => simp [hsb] at h
    | ok sb =>
      simp only [hsb] at h
      cases hrec : buildPath r rest entries sb with
      | error e => simp [hrec] at h
      | ok p =>
        obtain ⟨rS, subOid⟩ := p
        simp only [hrec] at h
        injection h with h2
        have h1 := congrArg Prod.fst h2
        simp only at h1
        rw [← h1]
        exact Repo.ext_trans (ih sb rS subOid hrec) (Repo.writeObject_ext rS _)

/-- Reading back the full path from the tree a single-entry buildPath
produced yields exactly the id of the added entry, in any extension of the
resulting store. -/
theorem buildPath_read (segs : List String) (r : Repo) (en : TreeEntry)
    (base : List TreeEntry) (r1 : Repo) (oid : Nat)
    (h : buildPath r segs [en] base = .ok (r1, oid))
    (r2 : Repo) (hext : Repo.ext r1 r2) :
    readPath r2 oid (segs ++ [en.name]) = some en.oid := by
  induction segs generalizing r base r1 oid with
  | nil =>
    unfold buildPath at h
    injection h with h2
    have h1 := congrArg Prod.fst h2
    have hsnd := congrArg Prod.snd h2
    simp only at h1 hsnd
    have hlook : r2.lookupObject oid = some (.tree (mergeEntries base [en])) := by
      apply hext
      rw [← h1, ← hsnd]
      exact Repo.writeObject_lookup r _
    simp only [List.nil_append, readPath, hlook, mergeEntries_find]
  | cons s rest ih =>
    unfold buildPath at h
    cases hsb : subtreeEntries r base s with
    | error e => simp [hsb] at h
    | ok sb =>
      simp only [hsb] at h
      cases hrec : buildPath r rest [en] sb with
      | error e => simp [hrec] at h
      | ok p =>
        obtain ⟨rS, subOid⟩ := p
        simp only [hrec] at h
        injection h with h2
        have h1 := congrArg Prod.fst h2
        have hsnd := congrArg Prod.snd h2
        simp only at h1 hsnd
        have hlook : r2.lookupObject oid = some (.tree (mergeEntries base
            [⟨s, subOid, GIT_FILEMODE_TREE⟩])) := by
          apply hext
          rw [← h1, ← hsnd]
          exact Repo.writeObject_lookup rS _
        have hfind := mergeEntries_find base (⟨s, subOid, GIT_FILEMODE_TREE⟩ : TreeEntry)
        have hextS : Repo.ext rS r2 := by
          apply Repo.ext_trans _ hext
          rw [← h1]
          exact Repo.writeObject_ext rS _
        simp only [List.cons_append, readPath, hlook, hfind]
        exact ih r sb rS subOid hrec hextS


/-- Writing a non-commit object leaves the commits of the store unchanged. -/
theorem filter_commit_write (r : Repo) (o : GitObject)
    (ho : isCommitObj o = false) :
    ((r.writeObject o).1.objects.filter isCommitObj) =
      r.objects.filter isCommitObj := by
  rcases Repo.writeObject_objects r o with h | h
  · rw [h]
  · rw [h, List.filter_append]
    simp [ho]

/-- Reference lookups only depend on the reference store. -/
theorem Repo.lookupReference_congr (r1 r2 : Repo) (h : r1.refs = r2.refs)
    (n : String) : r1.lookupReference n = r2.lookupReference n := by
  unfold Repo.lookupReference
  rw [h]

/-- Resolving a target only depends on the reference store. -/
theorem RefTarget.resolveOid_congr (t : RefTarget) (r1 r2 : Repo)
    (h : r1.refs = r2.refs) : t.resolveOid r1 = t.resolveOid r2 := by
  cases t with
  | oid n => rfl
  | symbolic s =>
    simp only [RefTarget.resolveOid]
    rw [Repo.lookupReference_congr r1 r2 h s]

/-- A successful diff leaves head, index, config and references unchanged,
only extends the object store, creates no commit object, and requires the
index to be present. -/
theorem Workspace.diff_ok (ws w : Workspace) (ds : List TreeEntry)
    (h : ws.diff = .ok w ds) :
    w.head = ws.head ∧ w.index = ws.index ∧ w.config = ws.config ∧
    w.repo.refs = ws.repo.refs ∧ Repo.ext ws.repo w.repo ∧
    w.repo.objects.filter isCommitObj = ws.repo.objects.filter isCommitObj ∧
    (∃ i, ws.index = some i) := by
  unfold Workspace.diff at h
  cases hbr : ws.branch with
  | error e => simp [hbr] at h
  | ok ob =>
    cases ob with
    | some b =>
      simp only [hbr] at h
      cases hidx : ws.index with
      | none => simp [hidx] at h
      | some i =>
        simp only [hidx] at h
        injection h with hw hds
        rw [← hw]
        exact ⟨rfl, hidx, rfl, rfl, Repo.ext_refl _, rfl, ⟨i, rfl⟩⟩
    | none =>
      simp only [hbr] at h
      cases hidx : ws.index with
      | none => simp [hidx] at h
      | some i =>
        simp only [hidx] at h
        injection h with hw hds
        rw [← hw]
        refine ⟨rfl, rfl, rfl, ?_, ?_, ?_, ⟨i, rfl⟩⟩
        · exact Repo.writeObject_refs ws.repo _
        · exact Repo.writeObject_ext ws.repo _
        · exact filter_commit_write ws.repo _ rfl

/-- The same state facts for has_changes, which wraps diff. -/
theorem Workspace.has_changes_ok (ws w : Workspace) (b : Bool)
    (h : ws.has_changes = .ok w b) :
    w.head = ws.head ∧ w.index = ws.index ∧ w.config = ws.config ∧
    w.repo.refs = ws.repo.refs ∧ Repo.ext ws.repo w.repo ∧
    w.repo.objects.filter isCommitObj = ws.repo.objects.filter isCommitObj ∧
    (∃ i, ws.index = some i) := by
  unfold Workspace.has_changes at h
  cases hd : ws.diff with
  | exn w2 e => simp [hd] at h
  | ok w2 ds =>
    simp only [hd] at h
    injection h with hw hb
    rw [← hw]
    exact Workspace.diff_ok ws w2 ds hd

/-- The branch property returns None exactly when the head reference is
absent. -/
theorem Workspace.branch_none_iff (ws : Workspace) :
    ws.branch = .ok none ↔ ws.repo.lookupReference ws.head = none := by
  unfold Workspace.branch Branch.make
  cases hl : ws.repo.lookupReference ws.head with
  | none => simp
  | some t =>
    cases hro : t.resolveOid ws.repo with
    | none => simp [hro]
    | some c =>
      cases hlo : ws.repo.lookupObject c with
      | none => simp [hro, hlo]
      | some o => cases o <;> simp [hro, hlo]

/-- A branch view survives into any workspace with the same head, the same
references and an extended object store. -/
theorem Workspace.branch_some_congr (w1 w2 : Workspace)
    (hh : w1.head = w2.head) (href : w1.repo.refs = w2.repo.refs)
    (hext : Repo.ext w1.repo w2.repo) (b : Branch)
    (hb : w1.branch = .ok (some b)) : w2.branch = .ok (some b) := by
  unfold Workspace.branch Branch.make at hb ⊢
  rw [← hh, ← Repo.lookupReference_congr w1.repo w2.repo href w1.head]
  cases hl : w1.repo.lookupReference w1.head with
  | none => simp [hl] at hb
  | some t =>
    simp only [hl] at hb ⊢
    rw [← RefTarget.resolveOid_congr t w1.repo w2.repo href]
    cases hro : t.resolveOid w1.repo with
    | none => simp [hro] at hb
    | some c =>
      simp only [hro] at hb ⊢
      cases hlo : w1.repo.lookupObject c with
      | none => simp [hlo] at hb
      | some o =>
        rw [hext c o hlo]
        simp only [hlo] at hb
        cases o <;> simp_all

/-- Creating a commit through the store repoints the ref at the new commit
id, stores the commit object there, and only extends the object store. -/
theorem Repo.create_commit_spec (r : Repo) (ref : String) (sa sc : Signature)
    (m : String) (treeOid : Nat) (ps : List Nat) :
    (r.create_commit ref sa sc m treeOid ps).1.lookupReference ref =
        some (.oid (r.create_commit ref sa sc m treeOid ps).2) ∧
      (r.create_commit ref sa sc m treeOid ps).1.lookupObject
        (r.create_commit ref sa sc m treeOid ps).2 =
          some (.commit treeOid ps sa sc m) ∧
      Repo.ext r (r.create_commit ref sa sc m treeOid ps).1 := by
  unfold Repo.create_commit
  refine ⟨Repo.setReference_lookup _ ref _, ?_, ?_⟩
  · rw [Repo.setReference_lookupObject]
    exact Repo.writeObject_lookup r _
  · intro i o h
    rw [Repo.setReference_lookupObject]
    exact Repo.writeObject_ext r _ i o h

/-- Workspace.create_commit with explicit parents succeeds and delegates to
the store with some pair of signatures. -/
theorem Workspace.create_commit_parents (ws : Workspace) (ref : String)
    (treeOid : Nat) (m : String) (a c : Option (String × String))
    (ps : List Nat) :
    ∃ sa sc, ws.create_commit ref treeOid m a c (some ps) =
      .ok { ws with repo := (ws.repo.create_commit ref sa sc m treeOid ps).1 }
        (ws.repo.create_commit ref sa sc m treeOid ps).2 := by
  unfold Workspace.create_commit
  exact ⟨_, _, rfl⟩

/-- Anatomy of a commit call that created a commit: it went through a dirty
has_changes, took the index as the commit tree, derived the parents from the
branch view, stored the commit and repointed the head reference at it. -/
theorem Workspace.commit_some (ws ws2 : Workspace) (m : String)
    (a c : Option (String × String)) (coid : Nat)
    (h : ws.commit m a c = .ok ws2 (some coid)) :
    ∃ w1 i ps sa sc,
      ws.has_changes = .ok w1 true ∧
      w1.index = some i ∧ ws.index = some i ∧
      ws2.head = ws.head ∧ ws2.index = some i ∧
      Repo.ext ws.repo ws2.repo ∧
      ws2.repo.lookupReference ws2.head = some (.oid coid) ∧
      ws2.repo.lookupObject coid = some (.commit i ps sa sc m) ∧
      ((∃ b, w1.branch = .ok (some b) ∧ ps = [b.commitOid]) ∨
        (w1.branch = .ok none ∧ ps = [])) := by
  unfold Workspace.commit at h
  cases hhc : ws.has_changes with
  | exn w e => simp [hhc] at h
  | ok w1 hc =>
    simp only [hhc] at h
    cases hc with
    | false => simp at h
    | true =>
      simp only [Bool.not_true, Bool.false_eq_true, if_false] at h
      cases hbr : w1.branch with
      | error e => simp [hbr] at h
      | ok ob =>
        simp only [hbr] at h
        obtain ⟨hhead, hwsidx, -, hrefs, hext1, -, hex⟩ :=
          Workspace.has_changes_ok ws w1 true hhc
        cases ob with
        | some b =>
          cases hidx : w1.index with
          | none => simp [hidx] at h
          | some i =>
            simp only [hidx] at h
            obtain ⟨sa, sc, hcc⟩ :=
              Workspace.create_commit_parents w1 w1.head i m a c [b.commitOid]
            simp only [hcc] at h
            injection h with hw hv
            injection hv with hcoid
            subst hw
            subst hcoid
            obtain ⟨hs1, hs2, hs3⟩ :=
              Repo.create_commit_spec w1.repo w1.head sa sc m i [b.commitOid]
            refine ⟨w1, i, [b.commitOid], sa, sc, rfl, hidx, ?_, hhead, hidx, ?_,
              hs1, hs2, Or.inl ⟨b, hbr, rfl⟩⟩
            · rw [← hwsidx, hidx]
            · exact Repo.ext_trans hext1 hs3
        | none =>
          cases hidx : w1.index with
          | none => simp [hidx] at h
          | some i =>
            simp only [hidx] at h
            obtain ⟨sa, sc, hcc⟩ :=
              Workspace.create_commit_parents w1 w1.head i m a c []
            simp only [hcc] at h
            injection h with hw hv
            injection hv with hcoid
            subst hw
            subst hcoid
            obtain ⟨hs1, hs2, hs3⟩ :=
              Repo.create_commit_spec w1.repo w1.head sa sc m i []
            refine ⟨w1, i, [], sa, sc, rfl, hidx, ?_, hhead, hidx, ?_,
              hs1, hs2, Or.inr ⟨hbr, rfl⟩⟩
            · rw [← hwsidx, hidx]
            · exact Repo.ext_trans hext1 hs3

/-- Dropping the last element and appending it back restores the list. -/
theorem dropLast_append_getLastD {α : Type} (l : List α) (d : α) (h : l ≠ []) :
    l.dropLast ++ [l.getLastD d] = l := by
  induction l generalizing d with
  | nil => exact absurd rfl h
  | cons a t ih =>
    cases t with
    | nil => rfl
    | cons b t2 =>
      have h2 : (b :: t2).dropLast ++ [(b :: t2).getLastD a] = b :: t2 :=
        ih a (by simp)
      simpa using h2

/-- A commit on a workspace whose post-check branch view resolved creates
the new commit with the branch commit as sole parent and repoints the head
reference at it. -/
theorem commit_creates_on_branch (ws ws1 : Workspace) (m : String)
    (a c : Option (String × String)) (i : Nat) (b : Branch)
    (hhc : ws.has_changes = .ok ws1 true) (hbr : ws1.branch = .ok (some b))
    (hidx : ws1.index = some i) :
    ∃ ws2 coid sa sc, ws.commit m a c = .ok ws2 (some coid) ∧
      ws2.repo.lookupObject coid = some (.commit i [b.commitOid] sa sc m) ∧
      ws2.repo.lookupReference ws.head = some (.oid coid) := by
  obtain ⟨hhead, -, -, -, -, -, -⟩ := Workspace.has_changes_ok ws ws1 true hhc
  obtain ⟨sa, sc, hcc⟩ :=
    Workspace.create_commit_parents ws1 ws1.head i m a c [b.commitOid]
  obtain ⟨hs1, hs2, -⟩ :=
    Repo.create_commit_spec ws1.repo ws1.head sa sc m i [b.commitOid]
  refine ⟨{ ws1 with
      repo := (ws1.repo.create_commit ws1.head sa sc m i [b.commitOid]).1 },
    (ws1.repo.create_commit ws1.head sa sc m i [b.commitOid]).2,
    sa, sc, ?_, hs2, ?_⟩
  · unfold Workspace.commit
    simp only [hhc, Bool.not_true, Bool.false_eq_true, if_false, hbr, hidx, hcc]
  · rw [← hhead]
    exact hs1

/-- A commit on a workspace whose post-check branch view is None (unborn
branch) creates a parentless commit and repoints the head reference. -/
theorem commit_creates_unborn (ws ws1 : Workspace) (m : String)
    (a c : Option (String × String)) (i : Nat)
    (hhc : ws.has_changes = .ok ws1 true) (hbr : ws1.branch = .ok none)
    (hidx : ws1.index = some i) :
    ∃ ws2 coid sa sc, ws.commit m a c = .ok ws2 (some coid) ∧
      ws2.repo.lookupObject coid = some (.commit i [] sa sc m) ∧
      ws2.repo.lookupReference ws.head = some (.oid coid) := by
  obtain ⟨hhead, -, -, -, -, -, -⟩ := Workspace.has_changes_ok ws ws1 true hhc
  obtain ⟨sa, sc, hcc⟩ :=
    Workspace.create_commit_parents ws1 ws1.head i m a c []
  obtain ⟨hs1, hs2, -⟩ :=
    Repo.create_commit_spec ws1.repo ws1.head sa sc m i []
  refine ⟨{ ws1 with
      repo := (ws1.repo.create_commit ws1.head sa sc m i []).1 },
    (ws1.repo.create_commit ws1.head sa sc m i []).2,
    sa, sc, ?_, hs2, ?_⟩
  · unfold Workspace.commit
    simp only [hhc, Bool.not_true, Bool.false_eq_true, if_false, hbr, hidx, hcc]
  · rw [← hhead]
    exact hs1

/-- A fixed signature for concrete repositories. -/
def sig0 : Signature := ⟨"u", "u@example.com", 0, 0⟩

/-- A fixed configuration for concrete workspaces. -/
def cfg0 : Config := ⟨10, 1, ("u", "u@example.com"), 0⟩

/-- A block body that completes normally. -/
def okBody : Workspace → PyResult Unit := fun w => .ok w ()

/-- A block body that raises ValueError without changing the state. -/
def raisingBody : Workspace → PyResult Unit := fun w => .exn w .valueError

/-- A workspace on an empty repository with no lock held. -/
def wsFree : Workspace := ⟨⟨[], []⟩, "refs/heads/master", some 0, cfg0⟩

/-- The workspace state after acquiring the lock x on wsFree: the empty
blob is stored and refs/locks/x points at it. -/
def wsLeaked : Workspace :=
  ⟨⟨[.blob ""], [("refs/locks/x", .oid 0)]⟩, "refs/heads/master", some 0, cfg0⟩

/-- A workspace whose index is the empty tree (id 0) while its head branch
points at a commit (id 3) over a non-empty tree (id 2); a second branch
named other points at another commit (id 4) over the same tree. -/
def wsDirty : Workspace :=
  ⟨⟨[.tree [], .blob "b", .tree [⟨"f", 1, 33188⟩],
      .commit 2 [] sig0 sig0 "m1", .commit 2 [] sig0 sig0 "m2"],
    [("refs/heads/master", .oid 3), ("refs/heads/other", .oid 4)]⟩,
    "refs/heads/master", some 0, cfg0⟩

/-- A repository holding one blob, a direct lock reference pointing at that
blob, and a symbolic reference to the lock reference. -/
def wsLockRef : Workspace :=
  ⟨⟨[.blob ""],
    [("refs/locks/l", .oid 0), ("refs/sym", .symbolic "refs/locks/l")]⟩,
    "refs/heads/master", some 0, cfg0⟩

/-- C1: the claim says the lock reference created by the scoped lock(id)
block is deleted on every exit path, including when the body raises.  The
code does not do this.  As written, acquisition raises AttributeError before
the body can run, because self.create_reference is not defined on Workspace
(the empty blob has already been created at that point).  Under the evident
intent (self.repo.create_reference), the generator-based context manager
deletes the reference only on a normal return of the body: when the body
raises, ref.delete() is skipped, the exception propagates, and the lock
reference is left behind, so locked(id) stays true. -/
theorem C1_lock_release_on_exception :
    wsFree.locked "x" = false ∧
    wsFree.lock "x" raisingBody =
      .exn ⟨⟨[.blob ""], []⟩, "refs/heads/master", some 0, cfg0⟩
        (.attributeError "create_reference") ∧
    wsFree.lockIntended "x" raisingBody = .exn wsLeaked .valueError ∧
    wsLeaked.locked "x" = true ∧
    wsFree.lockIntended "x" okBody =
      .ok ⟨⟨[.blob ""], []⟩, "refs/heads/master", some 0, cfg0⟩ () := by
  decide

/-- C2: the claim says a lock(id) call that finds the lock held and exceeds
the timeout raises LockWaitTimeoutExceeded and creates no lock reference.
The code cannot raise LockWaitTimeoutExceeded: on the first iteration of
the wait loop it evaluates time.sleep, and after the Python statement
bringing the time function into scope the name time is a function with no
sleep attribute, so
AttributeError is raised (had the timeout branch been reached first, the
message formatting would read the undefined self.path, also AttributeError).
No lock reference is created on this path: the exception state equals the
initial state.  Under the intended semantics the call does raise
LockWaitTimeoutExceeded with the state unchanged. -/
theorem C2_lock_timeout_exception_class :
    wsLeaked.locked "x" = true ∧
    wsLeaked.lock "x" okBody = .exn wsLeaked (.attributeError "sleep") ∧
    wsLeaked.lockIntended "x" okBody = .exn wsLeaked .lockWaitTimeoutExceeded := by
  decide

/-- C3: the claim says set_branch raises RepositoryError and leaves head and
index unchanged in every state where has_changes() is true.  The guard in
update_index is if self.index and self.has_changes(): a pygit2 Tree with no
entries is falsy, so when the index is an empty tree the dirty check is
skipped entirely.  On wsDirty, has_changes() is true (the master branch tree
has an entry, the index is the empty tree), yet set_branch switches to the
other branch, changing head and overwriting index without raising. -/
theorem C3_set_branch_skips_dirty_guard :
    wsDirty.has_changes = .ok wsDirty true ∧
    wsDirty.set_branch "other" =
      .ok ⟨wsDirty.repo, "refs/heads/other", some 2, cfg0⟩ () := by
  decide

/-- C7: the claim says create_branch fails with a type error when the
resolved start point does not point at a commit.  The code compares
Reference.type (GIT_REF_OID = 1 for every direct reference) with
GIT_OBJ_COMMIT (also 1), so any direct reference passes the check whatever
object it points at: starting from the lock reference refs/locks/l, which
points at a blob, create_branch succeeds and creates refs/heads/bad pointing
at the blob.  The ValueError is raised exactly for symbolic references
(Reference.type = GIT_REF_SYMBOLIC = 2), as the refs/sym case shows. -/
theorem C7_create_branch_accepts_non_commit :
    wsLockRef.repo.lookupObject 0 = some (.blob "") ∧
    wsLockRef.create_branch "bad" (some "refs/locks/l") =
      .ok ⟨⟨[.blob ""],
        [("refs/locks/l", .oid 0), ("refs/sym", .symbolic "refs/locks/l"),
          ("refs/heads/bad", .oid 0)]⟩,
        "refs/heads/master", some 0, cfg0⟩ () ∧
    wsLockRef.create_branch "b2" (some "refs/sym") = .exn wsLockRef .valueError := by
  decide

/-- A clean workspace on an unborn branch: the index is the stored empty
tree and the head reference does not exist. -/
def ws0 : Workspace := ⟨⟨[.tree []], []⟩, "refs/heads/master", some 0, cfg0⟩

/-- C5: commit_on_success raises RepositoryError before running the block
whenever has_changes() is true at entry (the exception state is the
pre-block state, for every body); when entered cleanly, a normal exit of the
block invokes commit with the supplied metadata, while a raising block makes
no commit, propagates the exception unchanged, and leaves the state,
including the index, exactly as the block left it. -/
theorem C5_commit_on_success (ws : Workspace) (m : String)
    (a c : Option (String × String)) (body : Workspace → PyResult Unit)
    (ws1 : Workspace) :
    (ws.has_changes = .ok ws1 true →
      ws.commit_on_success m a c body = .exn ws1 .repositoryError) ∧
    (ws.has_changes = .ok ws1 false →
      (∀ ws2 e, body ws1 = .exn ws2 e →
        ws.commit_on_success m a c body = .exn ws2 e) ∧
      (∀ ws2, body ws1 = .ok ws2 () →
        ws.commit_on_success m a c body = discardVal (ws2.commit m a c))) := by
  constructor
  · intro h
    unfold Workspace.commit_on_success
    simp only [h, if_true]
  · intro h
    constructor
    · intro ws2 e hb
      unfold Workspace.commit_on_success
      simp only [h, hb, Bool.false_eq_true, if_false]
    · intro ws2 hb
      unfold Workspace.commit_on_success
      simp only [h, hb, Bool.false_eq_true, if_false]

/-- Witness for C5 at a concrete clean workspace with a raising body. -/
theorem C5_commit_on_success_witness :
    ws0.has_changes = .ok ws0 false ∧
    ws0.commit_on_success "" none none raisingBody = .exn ws0 .valueError := by
  constructor
  · decide
  · exact ((C5_commit_on_success ws0 "" none none raisingBody ws0).2
      (by decide)).1 ws0 .valueError rfl

/-- C4: when has_changes() is false, commit returns the no-commit result
None, no reference moves and no commit object is created; when has_changes()
is true, commit creates one commit whose tree is the current index and whose
parent list is exactly the resolved branch commit, or empty when the head
branch is unborn, and repoints the head reference at the new commit. -/
theorem C4_commit (ws : Workspace) (m : String)
    (a c : Option (String × String)) (ws1 : Workspace) :
    (ws.has_changes = .ok ws1 false →
      ws.commit m a c = .ok ws1 none ∧
      ws1.repo.refs = ws.repo.refs ∧
      ws1.repo.objects.filter isCommitObj = ws.repo.objects.filter isCommitObj) ∧
    (ws.has_changes = .ok ws1 true →
      ∃ i, ws1.index = some i ∧
        ((∀ b, ws1.branch = .ok (some b) →
          ∃ ws2 coid sa sc, ws.commit m a c = .ok ws2 (some coid) ∧
            ws2.repo.lookupObject coid = some (.commit i [b.commitOid] sa sc m) ∧
            ws2.repo.lookupReference ws.head = some (.oid coid)) ∧
         (ws1.branch = .ok none →
          ∃ ws2 coid sa sc, ws.commit m a c = .ok ws2 (some coid) ∧
            ws2.repo.lookupObject coid = some (.commit i [] sa sc m) ∧
            ws2.repo.lookupReference ws.head = some (.oid coid)))) := by
  constructor
  · intro h
    obtain ⟨-, -, -, hrefs, -, hfilter, -⟩ := Workspace.has_changes_ok ws ws1 false h
    refine ⟨?_, hrefs, hfilter⟩
    unfold Workspace.commit
    simp only [h, Bool.not_false, if_true]
  · intro h
    obtain ⟨-, hwsidx, -, -, -, -, hex⟩ := Workspace.has_changes_ok ws ws1 true h
    obtain ⟨i, hi⟩ := hex
    have hidx : ws1.index = some i := by rw [hwsidx, hi]
    refine ⟨i, hidx, ?_, ?_⟩
    · intro b hbr
      exact commit_creates_on_branch ws ws1 m a c i b h hbr hidx
    · intro hbr
      exact commit_creates_unborn ws ws1 m a c i h hbr hidx

/-- Witness for C4 at concrete inputs: a clean unborn workspace commits to
None, and the dirty workspace wsDirty creates a commit parented on the
resolved master branch commit. -/
theorem C4_commit_witness :
    ws0.commit "" none none = .ok ws0 none ∧
    (∃ ws2 coid sa sc, wsDirty.commit "" none none = .ok ws2 (some coid) ∧
      ws2.repo.lookupObject coid = some (.commit 0 [3] sa sc "") ∧
      ws2.repo.lookupReference wsDirty.head = some (.oid coid)) := by
  constructor
  · exact (((C4_commit ws0 "" none none ws0).1 (by decide))).1
  · obtain ⟨i, hidx, hsome, -⟩ := (C4_commit wsDirty "" none none wsDirty).2 (by decide)
    have hi : i = 0 := by
      have : (some i : Option Nat) = some 0 := by rw [← hidx]; decide
      simpa using this
    subst hi
    exact hsome ⟨.oid 3, 3, 2⟩ (by decide)

/-- C10: when the head names a reference that does not resolve, the branch
accessor returns None instead of failing; diff then compares a freshly
written empty tree against the index; and a commit that has changes creates
a parentless commit. -/
theorem C10_unborn_branch (ws : Workspace) (m : String)
    (a c : Option (String × String))
    (h : ws.repo.lookupReference ws.head = none) :
    ws.branch = .ok none ∧
    (∀ i, ws.index = some i →
      ws.diff = .ok { ws with repo := (ws.repo.writeObject (.tree [])).1 }
        (treeDiff [] ((ws.repo.writeObject (.tree [])).1.treeEntries i))) ∧
    (∀ ws1, ws.has_changes = .ok ws1 true →
      ∃ ws2 coid i sa sc, ws1.index = some i ∧
        ws.commit m a c = .ok ws2 (some coid) ∧
        ws2.repo.lookupObject coid = some (.commit i [] sa sc m)) := by
  have hbr0 : ws.branch = .ok none := (Workspace.branch_none_iff ws).mpr h
  refine ⟨hbr0, ?_, ?_⟩
  · intro i hi
    unfold Workspace.diff
    simp only [hbr0, hi]
  · intro ws1 hhc
    obtain ⟨hhead, hwsidx, -, hrefs, -, -, hex⟩ :=
      Workspace.has_changes_ok ws ws1 true hhc
    obtain ⟨i, hi⟩ := hex
    have hidx : ws1.index = some i := by rw [hwsidx, hi]
    have hbr : ws1.branch = .ok none := by
      rw [Workspace.branch_none_iff]
      rw [Repo.lookupReference_congr ws1.repo ws.repo hrefs, hhead]
      exact h
    obtain ⟨ws2, coid, sa, sc, hc1, hc2, -⟩ :=
      commit_creates_unborn ws ws1 m a c i hhc hbr hidx
    exact ⟨ws2, coid, i, sa, sc, hidx, hc1, hc2⟩

/-- An unborn-branch workspace whose index tree (id 2) has one entry, so it
has pending changes. -/
def wsUnbornDirty : Workspace :=
  ⟨⟨[.tree [], .blob "x", .tree [⟨"a", 1, 33188⟩]], []⟩,
    "refs/heads/master", some 2, cfg0⟩

/-- Witness for C10 at a concrete unborn workspace with pending changes. -/
theorem C10_unborn_branch_witness :
    wsUnbornDirty.branch = .ok none ∧
    (∃ ws2 coid i sa sc, wsUnbornDirty.index = some i ∧
      wsUnbornDirty.commit "" none none = .ok ws2 (some coid) ∧
      ws2.repo.lookupObject coid = some (.commit i [] sa sc "")) := by
  refine ⟨(C10_unborn_branch wsUnbornDirty "" none none (by decide)).1, ?_⟩
  exact (C10_unborn_branch wsUnbornDirty "" none none (by decide)).2.2
    wsUnbornDirty (by decide)

/-- C6: constructing a Workspace is a three-way case split: a store that
cannot be located fails with RepositoryNotFound; an existing head reference
that resolves to a commit sets the index to that branch tree; a missing head
reference sets the index to a freshly written empty tree with no entries. -/
theorem C6_workspace_init (fs : List (String × Repo)) (path ib : String)
    (cfg : Config) :
    (fs.find? (fun p => p.1 = path) = none →
      Workspace.init fs path ib cfg = .error .repositoryNotFound) ∧
    (∀ pr, fs.find? (fun p => p.1 = path) = some pr →
      ((pr.2.lookupReference ib = none →
        ∃ ws i, Workspace.init fs path ib cfg = .ok ws ∧ ws.head = ib ∧
          ws.index = some i ∧ ws.repo.treeEntries i = []) ∧
       (∀ t cm tr ps sa sc msg, pr.2.lookupReference ib = some t →
          t.resolveOid pr.2 = some cm →
          pr.2.lookupObject cm = some (.commit tr ps sa sc msg) →
          Workspace.init fs path ib cfg = .ok ⟨pr.2, ib, some tr, cfg⟩))) := by
  refine ⟨?_, ?_⟩
  · intro h
    unfold Workspace.init
    rw [h]
    rfl
  · intro pr hpr
    refine ⟨?_, ?_⟩
    · intro hl
      refine ⟨⟨(pr.2.writeObject (.tree [])).1, ib,
          some (pr.2.writeObject (.tree [])).2, cfg⟩,
        (pr.2.writeObject (.tree [])).2, ?_, rfl, rfl, ?_⟩
      · unfold Workspace.init
        simp only [hpr, Option.map_some', hl]
      · unfold Repo.treeEntries
        rw [Repo.writeObject_lookup]
    · intro t cm tr ps sa sc msg hl hro hlo
      have hbm : (⟨pr.2, ib, none, cfg⟩ : Workspace).branch =
          .ok (some ⟨t, cm, tr⟩) := by
        unfold Workspace.branch Branch.make
        simp only [hl, hro, hlo]
      have hui : (⟨pr.2, ib, none, cfg⟩ : Workspace).update_index ib =
          .ok ⟨pr.2, ib, some tr, cfg⟩ () := by
        unfold Workspace.update_index Workspace.indexTruthy
        simp only [hl, hbm, Bool.false_eq_true, if_false]
      unfold Workspace.init
      simp only [hpr, Option.map_some', hl, hui]

/-- Witness for C6 at concrete inputs: a missing store, an unborn branch,
and an existing branch. -/
theorem C6_workspace_init_witness :
    Workspace.init [("p", (⟨[.tree []], []⟩ : Repo))] "q" "refs/heads/master"
        cfg0 = .error .repositoryNotFound ∧
    (∃ ws i, Workspace.init [("p", (⟨[.tree []], []⟩ : Repo))] "p"
        "refs/heads/master" cfg0 = .ok ws ∧ ws.head = "refs/heads/master" ∧
      ws.index = some i ∧ ws.repo.treeEntries i = []) ∧
    Workspace.init [("d", wsDirty.repo)] "d" "refs/heads/master" cfg0 =
      .ok ⟨wsDirty.repo, "refs/heads/master", some 2, cfg0⟩ := by
  refine ⟨?_, ?_, ?_⟩
  · exact (C6_workspace_init [("p", ⟨[.tree []], []⟩)] "q" "refs/heads/master"
      cfg0).1 (by decide)
  · exact ((C6_workspace_init [("p", ⟨[.tree []], []⟩)] "p" "refs/heads/master"
      cfg0).2 ("p", ⟨[.tree []], []⟩) (by decide)).1 (by decide)
  · exact ((C6_workspace_init [("d", wsDirty.repo)] "d" "refs/heads/master"
      cfg0).2 ("d", wsDirty.repo) (by decide)).2 (.oid 3) 3 2 [] sig0 sig0 "m1"
      (by decide) (by decide) (by decide)

/-- A successful update_index on a workspace whose index is not truthy
resolved the branch of the given ref and installed its tree as the index. -/
theorem Workspace.update_index_ok_of_clean (w ws2 : Workspace) (ref : String)
    (hti : w.indexTruthy = false) (hui : w.update_index ref = .ok ws2 ()) :
    ∃ b, Branch.make w.repo ref = .ok b ∧
      ws2 = ⟨w.repo, ref, some b.treeOid, w.config⟩ := by
  unfold Workspace.update_index at hui
  simp only [hti, Bool.false_eq_true, if_false] at hui
  cases hl : w.repo.lookupReference ref with
  | none => simp [hl] at hui
  | some t =>
    simp only [hl] at hui
    cases hbm : Branch.make w.repo ref with
    | ok b =>
      have hbr : ({ w with head := ref } : Workspace).branch = .ok (some b) := by
        unfold Workspace.branch
        simp only [hbm]
      simp only [hbr] at hui
      injection hui with h1 h2
      exact ⟨b, rfl, h1.symm⟩
    | error e =>
      have hbr2 : ({ w with head := ref } : Workspace).branch = .ok none ∨
          ({ w with head := ref } : Workspace).branch = .error e := by
        unfold Workspace.branch
        cases e <;> simp [hbm]
      rcases hbr2 with hb | hb <;> simp [hb] at hui

/-- C9: has_changes() is true exactly when the diff between the resolved
branch tree (or a fresh empty tree when unborn) and the index is non-empty;
it is false immediately after construction, and false immediately after a
commit() call that created a commit. -/
theorem C9_has_changes_diff (ws w : Workspace) (ds : List TreeEntry)
    (fs : List (String × Repo)) (path ib : String) (cfg : Config)
    (w0 : Workspace) (m : String) (a c : Option (String × String))
    (ws2 : Workspace) (coid : Nat) :
    (ws.diff = .ok w ds → ws.has_changes = .ok w (decide (0 < ds.length))) ∧
    (Workspace.init fs path ib cfg = .ok w0 →
      ∃ w1, w0.has_changes = .ok w1 false) ∧
    (ws.commit m a c = .ok ws2 (some coid) →
      ∃ w3, ws2.has_changes = .ok w3 false) := by
  refine ⟨?_, ?_, ?_⟩
  · intro h
    unfold Workspace.has_changes
    simp only [h]
  · intro h
    unfold Workspace.init at h
    cases hf : (fs.find? (fun p => p.1 = path)).map (fun p => p.2) with
    | none => simp [hf] at h
    | some repo =>
      simp only [hf] at h
      cases hl : repo.lookupReference ib with
      | none =>
        simp only [hl] at h
        injection h with hw
        subst hw
        have hbr0 : (⟨(repo.writeObject (.tree [])).1, ib,
            some (repo.writeObject (.tree [])).2, cfg⟩ : Workspace).branch =
            .ok none := by
          rw [Workspace.branch_none_iff]
          show (repo.writeObject (.tree [])).1.lookupReference ib = none
          rw [Repo.lookupReference_congr (repo.writeObject (.tree [])).1 repo
            (Repo.writeObject_refs repo _) ib]
          exact hl
        have hte : (((repo.writeObject (.tree [])).1.writeObject
            (.tree [])).1.treeEntries (repo.writeObject (.tree [])).2) = [] := by
          unfold Repo.treeEntries
          rw [Repo.writeObject_ext (repo.writeObject (.tree [])).1 (.tree [])
            (repo.writeObject (.tree [])).2 (.tree [])
            (Repo.writeObject_lookup repo (.tree []))]
        unfold Workspace.has_changes Workspace.diff
        simp only [hbr0, hte]
        exact ⟨_, rfl⟩
      | some t =>
        simp only [hl] at h
        cases hui : (⟨repo, ib, none, cfg⟩ : Workspace).update_index ib with
        | exn wx e => simp [hui] at h
        | ok wx u =>
          simp only [hui] at h
          injection h with hw
          subst hw
          cases u
          obtain ⟨b, hbm, hwx⟩ :=
            Workspace.update_index_ok_of_clean ⟨repo, ib, none, cfg⟩ wx ib rfl hui
          subst hwx
          have hbr : (⟨repo, ib, some b.treeOid, cfg⟩ : Workspace).branch =
              .ok (some b) := by
            unfold Workspace.branch
            simp only [hbm]
          unfold Workspace.has_changes Workspace.diff
          simp only [hbr, treeDiff_self]
          exact ⟨_, rfl⟩
  · intro h
    obtain ⟨w1, i, ps, sa, sc, hhc, hidx1, hwsidx, hhead, hidx2, hext, hlr,
      hlo, hpar⟩ := Workspace.commit_some ws ws2 m a c coid h
    have hbr : ws2.branch = .ok (some ⟨.oid coid, coid, i⟩) := by
      unfold Workspace.branch Branch.make
      simp only [hlr, RefTarget.resolveOid, hlo]
    unfold Workspace.has_changes Workspace.diff
    simp only [hbr, hidx2, treeDiff_self]
    exact ⟨_, rfl⟩

/-- Witness for C9: a diff evaluated on the concrete dirty workspace and a
construction on a concrete store. -/
theorem C9_has_changes_diff_witness :
    wsDirty.has_changes =
      .ok wsDirty (decide (0 < ([⟨"f", 1, 33188⟩] : List TreeEntry).length)) ∧
    (∃ w1, ws0.has_changes = .ok w1 false) := by
  constructor
  · exact (C9_has_changes_diff wsDirty wsDirty [⟨"f", 1, 33188⟩]
      [("p", ⟨[.tree []], []⟩)] "p" "refs/heads/master" cfg0 ws0 "" none none
      ws0 0).1 (by decide)
  · exact (C9_has_changes_diff ws0 ws0 [] [("p", ⟨[.tree []], []⟩)] "p"
      "refs/heads/master" cfg0 ws0 "" none none ws0 0).2.1 (by decide)

/-- Dropping the last element and appending the leaf name restores the
path. -/
theorem dropLast_append_lastName (l : List String) (h : l ≠ []) :
    l.dropLast ++ [lastName l] = l :=
  dropLast_append_getLastD l "" h

/-- C8: add_blob splits the path into parent and leaf name, stores a blob of
the content, adds that single entry, and returns the blob id; reading the
path back from the new index yields that blob, and after a commit() that
created a commit, reading the committed tree at the path still yields
exactly the original content. -/
theorem C8_add_blob_round_trip (ws : Workspace) (segs : List String)
    (content m : String) (mode : Nat) (a c : Option (String × String))
    (hne : segs ≠ []) (ws1 : Workspace) (blobOid : Nat)
    (hadd : ws.add_blob segs content mode = .ok ws1 blobOid)
    (ws2 : Workspace) (res : Option Nat)
    (hcommit : ws1.commit m a c = .ok ws2 res) :
    ws1.repo.lookupObject blobOid = some (.blob content) ∧
    (∃ i, ws1.index = some i ∧ readPath ws1.repo i segs = some blobOid) ∧
    (∀ coid, res = some coid →
      ∃ tOid ps sa sc,
        ws2.repo.lookupObject coid = some (.commit tOid ps sa sc m) ∧
        readPath ws2.repo tOid segs = some blobOid ∧
        ws2.repo.lookupObject blobOid = some (.blob content)) := by
  unfold Workspace.add_blob at hadd
  cases hA : ({ ws with repo := (ws.repo.writeObject (.blob content)).1 } :
      Workspace).add segs.dropLast
      [⟨lastName segs, (ws.repo.writeObject (.blob content)).2, mode⟩] with
  | exn wx e => simp [hA] at hadd
  | ok wx u =>
    simp only [hA] at hadd
    injection hadd with hw hb
    subst hw
    subst hb
    cases u
    unfold Workspace.add at hA
    cases hidx0 : ws.index with
    | none => simp [hidx0] at hA
    | some i0 =>
      simp only [hidx0] at hA
      cases hB : buildPath (ws.repo.writeObject (.blob content)).1 segs.dropLast
          [⟨lastName segs, (ws.repo.writeObject (.blob content)).2, mode⟩]
          ((ws.repo.writeObject (.blob content)).1.treeEntries i0) with
      | error e => simp [hB] at hA
      | ok p =>
        obtain ⟨r1, oid⟩ := p
        simp only [hB] at hA
        injection hA with hwx
        subst hwx
        have hblob1 : r1.lookupObject (ws.repo.writeObject (.blob content)).2 =
            some (.blob content) :=
          buildPath_ext segs.dropLast (ws.repo.writeObject (.blob content)).1
            _ _ r1 oid hB _ _ (Repo.writeObject_lookup ws.repo (.blob content))
        have hread1 : readPath r1 oid segs =
            some (ws.repo.writeObject (.blob content)).2 := by
          have h2 := buildPath_read segs.dropLast
            (ws.repo.writeObject (.blob content)).1
            ⟨lastName segs, (ws.repo.writeObject (.blob content)).2, mode⟩
            ((ws.repo.writeObject (.blob content)).1.treeEntries i0) r1 oid hB
            r1 (Repo.ext_refl r1)
          rw [dropLast_append_lastName segs hne] at h2
          exact h2
        refine ⟨hblob1, ⟨oid, rfl, hread1⟩, ?_⟩
        intro coid hres
        subst hres
        obtain ⟨w1, i, ps, sa, sc, hhc, hidx1, hwsidx, hhead, hidx2, hext,
          hlr, hlo, hpar⟩ := Workspace.commit_some _ ws2 m a c coid hcommit
        have hio : i = oid := by
          have h3 : (some oid : Option Nat) = some i := hwsidx
          injection h3 with h4
          exact h4.symm
        subst hio
        refine ⟨i, ps, sa, sc, hlo, ?_, hext _ _ hblob1⟩
        have h5 := buildPath_read segs.dropLast
          (ws.repo.writeObject (.blob content)).1
          ⟨lastName segs, (ws.repo.writeObject (.blob content)).2, mode⟩
          ((ws.repo.writeObject (.blob content)).1.treeEntries i0) r1 i hB
          ws2.repo hext
        rw [dropLast_append_lastName segs hne] at h5
        exact h5

/-- The workspace state after ws0.add_blob at path a/b with content hello:
the blob is stored at id 1 and the rebuilt index tree is id 3. -/
def ws8 : Workspace :=
  ⟨⟨[.tree [], .blob "hello", .tree [⟨"b", 1, 33188⟩], .tree [⟨"a", 2, 16384⟩]],
    []⟩, "refs/heads/master", some 3, cfg0⟩

/-- The workspace state after committing ws8: the parentless commit is
stored at id 4 and the head reference points at it. -/
def ws9 : Workspace :=
  ⟨⟨[.tree [], .blob "hello", .tree [⟨"b", 1, 33188⟩], .tree [⟨"a", 2, 16384⟩],
      .commit 3 [] sig0 sig0 ""],
    [("refs/heads/master", .oid 4)]⟩, "refs/heads/master", some 3, cfg0⟩

/-- Witness for C8 on the concrete round trip a/b with content hello. -/
theorem C8_add_blob_round_trip_witness :
    ws8.repo.lookupObject 1 = some (.blob "hello") ∧
    (∃ i, ws8.index = some i ∧ readPath ws8.repo i ["a", "b"] = some 1) ∧
    (∀ coid, (some 4 : Option Nat) = some coid →
      ∃ tOid ps sa sc,
        ws9.repo.lookupObject coid = some (.commit tOid ps sa sc "") ∧
        readPath ws9.repo tOid ["a", "b"] = some 1 ∧
        ws9.repo.lookupObject 1 = some (.blob "hello")) :=
  C8_add_blob_round_trip ws0 ["a", "b"] "hello" "" GIT_FILEMODE_BLOB none none
    (by decide) ws8 1 (by decide) ws9 (some 4) (by decide)
